import Mathlib

/-!
Verification development for the pyhrv frequency-domain HRV pipeline.

The numeric code of `src/pyhrv/utils.py`, `src/pyhrv/rri/frequency.py` and
`src/pyhrv/hrv.py` is shallowly embedded here.  Real-valued quantities are
modelled over `ℚ` (exact arithmetic standing for the real-valued mathematics
the source expresses); external SciPy routines (`scipy.signal.lombscargle`,
`scipy.signal.welch`, `scipy.interpolate.interp1d`, window-function factories)
are out-of-scope collaborators and enter the model as explicit function
parameters, bundled in the `Ext` structure.  Fallible code returns
`Except Err`; the `Err` constructors follow the specification's error
taxonomy (the Python source raises `ValueError` with distinct messages for
each of these situations).
-/

set_option autoImplicit false

namespace Pyhrv

/-- Error taxonomy of the specification (section 7).  Each constructor stands
for one of the distinct `ValueError` situations raised by the source. -/
inductive Err where
  | configError
  | shapeError
  | shapeMismatchError
  | noDataError
deriving DecidableEq, Repr

/-- Model of a numpy `ndarray` of rationals: a shape (list of dimension
sizes) together with the flat (row-major) data. -/
structure NDArray where
  shape : List Nat
  data : List ℚ
deriving DecidableEq, Repr

/-- Embedding of `utils.np_squeeze_check` (`src/pyhrv/utils.py:55-66`).
`a.squeeze()` removes every axis of size 1, so the squeezed array's `ndim`
equals the number of non-unit dimensions of the original shape; if that is
not exactly 1 the source raises `ValueError("The given array is not 1d")`
(the spec's `ShapeError`).  On success the 1-d content is the flat data. -/
def np_squeeze_check (a : NDArray) : Except Err (List ℚ) :=
  if (a.shape.filter (fun d => d ≠ 1)).length = 1 then .ok a.data
  else .error .shapeError

/-- `np.cumsum` on a 1-d array: partial sums, same length as the input. -/
def cumsum (xs : List ℚ) : List ℚ :=
  (xs.scanl (· + ·) 0).tail

/-- Embedding of `utils.standardize_rri_trr` (`src/pyhrv/utils.py:69-86`).
When `trr` is absent it is synthesized as `np.r_[0.0, np.cumsum(rri)[:-1]]`;
when present, its squeezed length must match `rri`'s or the source raises
`ValueError("Shape mismatch between rri and trr")` (the spec's
`ShapeMismatchError`). -/
def standardize_rri_trr (rri : NDArray) (trr : Option NDArray) :
    Except Err (List ℚ × List ℚ) :=
  match np_squeeze_check rri with
  | .error e => .error e
  | .ok r =>
    match trr with
    | none => .ok (r, 0 :: (cumsum r).dropLast)
    | some t =>
      match np_squeeze_check t with
      | .error e => .error e
      | .ok t' =>
        if t'.length ≠ r.length then .error .shapeMismatchError
        else .ok (r, t')

/-- `np.arange(start, stop, step)` (also `np.r_[start:stop:step]`) for a
positive step: the values `start + i * step` for `i < ⌈(stop - start)/step⌉`. -/
def arange (start stop step : ℚ) : List ℚ :=
  let len : Nat := if 0 < step then (⌈(stop - start) / step⌉).toNat else 0
  (List.range len).map (fun (i : Nat) => start + step * (i : ℚ))

/-- Embedding of `frequency.build_uniform_freq_axis`
(`src/pyhrv/rri/frequency.py:85-129`).  The `resample_factor < 2` check
raises `ValueError` (the spec's `ConfigError`).  The returned axis is
`np.r_[f_res:f_max:f_res]` and the uniform rate is
`resample_factor * f_max`. -/
def build_uniform_freq_axis (t_win f_min f_max resample_factor
    oversample_factor : ℚ) : Except Err (List ℚ × ℚ) :=
  let t_win_min := 1 / f_min
  let t_win := max t_win t_win_min
  if resample_factor < 2 then .error .configError
  else
    let fs_uni := resample_factor * f_max
    let n_win_uni : ℤ := ⌊t_win / (1 / fs_uni)⌋
    let ts := t_win / ((n_win_uni : ℚ) - 1)
    let f_res := 1 / ((n_win_uni : ℚ) * ts)
    let f_res := f_res / oversample_factor
    .ok (arange f_res f_max f_res, fs_uni)

/-- The step (first bin) of the axis produced by `build_uniform_freq_axis`,
as computed by the source (`f_res` after the oversampling division). -/
def buildFres (t_win f_min f_max resample_factor oversample_factor : ℚ) : ℚ :=
  let t_win := max t_win (1 / f_min)
  let fs_uni := resample_factor * f_max
  let n_win_uni : ℤ := ⌊t_win / (1 / fs_uni)⌋
  (1 / ((n_win_uni : ℚ) * (t_win / ((n_win_uni : ℚ) - 1)))) / oversample_factor

/-- External collaborators of the core (SciPy routines and the resolved
window-function callable).  `lombscargleFn` models
`scipy.signal.lombscargle(times, values, angular_freqs)`; `welchFn` models
`scipy.signal.welch(x, fs, nperseg, noverlap, window)` returning the pair
of frequency and power arrays; `interpFn` models the cubic interpolator
`scipy.interpolate.interp1d(trr, rri, ...)` evaluated on a time grid;
`twoPi` stands for the real constant `2 * math.pi` used to convert the
frequency axis to angular frequencies (its value only feeds the external
`lombscargleFn`, so it is kept abstract). -/
structure Ext where
  lombscargleFn : List ℚ → List ℚ → List ℚ → List ℚ
  welchFn : List ℚ → ℚ → Nat → Int → List ℚ → List ℚ × List ℚ
  interpFn : List ℚ → List ℚ → List ℚ → List ℚ
  twoPi : ℚ

/-- `scipy.signal.windows.boxcar`: the rectangular window, all ones. -/
def boxcar (n : Nat) : List ℚ :=
  List.replicate n 1

/-- `np.mean` of a 1-d array. -/
def listMean (xs : List ℚ) : ℚ :=
  xs.sum / (xs.length : ℚ)

/-- The value of the loop variable `i` of `pxx_lomb` when the window loop
breaks (`src/pyhrv/rri/frequency.py:45-52`): the source enumerates window
starts `t_win * i` and breaks at the first `i` whose window end
`t_win * (i + 1)` exceeds `sig_duration`, so the break value of `i` — which
is both the number of processed windows and the divisor of the final
averaging step — is `⌊sig_duration / t_win⌋` (clamped at 0) whenever
`0 < t_win`.  For `t_win ≤ 0` the source loop never reaches its break
condition (it would run for `2^63 - 1` iterations); the model returns 0
there and every theorem about `pxx_lomb` assumes `0 < t_win`. -/
def lombWindowCount (t_win sig_duration : ℚ) : Nat :=
  if 0 < t_win then (⌊sig_duration / t_win⌋).toNat else 0

/-- Embedding of `frequency.pxx_lomb` (`src/pyhrv/rri/frequency.py:12-82`).
Faithful points to note, visible in the source:
* `if not t_win` treats both `None` and `0` as absent, replacing them by
  `math.floor(trr[-1] - trr[0])`;
* `if not win_func` replaces an absent window function by `boxcar` (the
  SciPy default argument `hamming` is a caller-side concern and the
  orchestrator always passes one explicitly);
* per window, the masked values `rri_win` are tapered in place
  (`rri_win *= win_coeffs`, a copy — kept here as `_rri_win_tapered`) but
  the periodogram call receives the FULL `trr` and `rri` arrays;
* the Nyquist-insufficiency check only emits `logger.warning` and does not
  affect the result, so it does not appear in the model;
* the accumulated spectrum is divided by the loop variable `i`
  (`lombWindowCount`), which is 0 when no window fits. -/
def pxx_lomb (ext : Ext) (rri : NDArray) (f_axis : List ℚ) (trr : Option NDArray)
    (t_win? : Option ℚ) (win_func? : Option (Nat → List ℚ)) :
    Except Err (List ℚ) :=
  match standardize_rri_trr rri trr with
  | .error e => .error e
  | .ok (rri, trr) =>
    let default_t_win : ℚ := ((⌊trr.getLastD 0 - trr.headD 0⌋ : ℤ) : ℚ)
    let t_win : ℚ := match t_win? with
      | none => default_t_win
      | some t => if t = 0 then default_t_win else t
    let win_func := win_func?.getD boxcar
    let w_axis := f_axis.map (fun f => f * ext.twoPi)
    let sig_duration := trr.getLastD 0
    let count := lombWindowCount t_win sig_duration
    let contribs := (List.range count).map (fun (i : Nat) =>
      let win_start := t_win * ((i : ℕ) : ℚ)
      let win_end := win_start + t_win
      let rri_win := ((trr.zip rri).filter
        (fun p => decide (win_start ≤ p.1) && decide (p.1 < win_end))).map Prod.snd
      let win_coeffs := win_func rri_win.length
      let _rri_win_tapered := List.zipWith (· * ·) rri_win win_coeffs
      let pxx_win := ext.lombscargleFn trr rri w_axis
      pxx_win.map (fun x => x * (1 / listMean win_coeffs)))
    let pxx := contribs.foldl (fun acc l => List.zipWith (· + ·) acc l)
      (f_axis.map (fun _ => (0 : ℚ)))
    .ok (pxx.map (fun x => x / (count : ℚ)))

/-- Embedding of the windowing decision of `hrv_freq`
(`src/pyhrv/hrv.py:126-141`), returning `(t_win, num_windows)`.
`if not window_minutes or window_minutes < 1` treats `None`, `0` and any
value below 1 as absent, substituting `max(1, floor((trr[-1]-trr[0])/60))`.
The one-window fallback condition is `floor(t_max / t_win) < 1` with
`t_max = trr[-1]` (the last timestamp, NOT the duration
`trr[-1] - trr[0]`). -/
def hrvWindowing (trr : List ℚ) (window_minutes : Option ℚ) (f_min : ℚ) :
    ℚ × ℤ :=
  let auto_wm : ℚ := ((max 1 ⌊(trr.getLastD 0 - trr.headD 0) / 60⌋ : ℤ) : ℚ)
  let wm : ℚ := match window_minutes with
    | none => auto_wm
    | some w => if w = 0 ∨ w < 1 then auto_wm else w
  let t_max := trr.getLastD 0
  let t_win_min := 1 / f_min
  let t_win := max (60 * wm) t_win_min
  let num_windows : ℤ := ⌊t_max / t_win⌋
  if num_windows < 1 then (((⌊trr.getLastD 0 - trr.headD 0⌋ : ℤ) : ℚ), 1)
  else (t_win, num_windows)

/-- The argument record of `hrv_freq` (`src/pyhrv/hrv.py:20-32`).  The
`win_func` field models the callable after the optional string-to-function
resolution (`utils.import_function_by_name`, an external importlib lookup).
`extra_bands` and `ar_order` are accepted by the source but never read in
its body, so they are omitted. -/
structure HrvArgs where
  rri : NDArray
  trr : Option NDArray
  methods : List String
  norm_method : String
  vlf_band : List ℚ
  lf_band : List ℚ
  hf_band : List ℚ
  window_minutes : Option ℚ
  win_func : Nat → List ℚ
  oversample_factor : ℚ
  resample_factor : ℚ
  welch_overlap : ℚ

/-- The method names accepted by `hrv_freq` (`src/pyhrv/hrv.py:101`). -/
def supportedMethods : List String :=
  ["lomb", "ar", "welch"]

/-- The raw Welch-estimator call of `hrv_freq`'s `welch` branch
(`src/pyhrv/hrv.py:148-175`), reconstructing the uniform grid, the
per-window sample count, the overlap sample count and the window exactly as
the orchestrator does, and returning the external estimator's
`(f_welch, pxx_welch)` pair. -/
def hrvWelchRaw (ext : Ext) (args : HrvArgs) (rri trr : List ℚ) :
    List ℚ × List ℚ :=
  let f_min := args.vlf_band.headD 0
  let f_max := args.hf_band.getD 1 0
  let t_win := (hrvWindowing trr args.window_minutes f_min).1
  let fs_uni := args.resample_factor * f_max
  let trr_uni := arange (trr.headD 0) (trr.getLastD 0) (1 / fs_uni)
  let n_win_uni := (⌊t_win / (1 / fs_uni)⌋).toNat
  let rri_uni := ext.interpFn trr rri trr_uni
  let welch_window := args.win_func n_win_uni
  let welch_overlap : ℤ := ⌊(n_win_uni : ℚ) * args.welch_overlap / 100⌋
  ext.welchFn rri_uni fs_uni n_win_uni welch_overlap welch_window

/-- The `welch` PSD entry of `hrv_freq`'s result: the estimator values kept
by the truncation `pxx_welch[f_welch <= f_max]` (`src/pyhrv/hrv.py:177`). -/
def hrvWelchPsd (ext : Ext) (args : HrvArgs) (rri trr : List ℚ) : List ℚ :=
  let f_max := args.hf_band.getD 1 0
  let fp := hrvWelchRaw ext args rri trr
  ((fp.1.zip fp.2).filter (fun p => decide (p.1 ≤ f_max))).map Prod.snd

/-- Embedding of the orchestrator `hrv_freq` (`src/pyhrv/hrv.py:20-179`).
Mirrors the source order: method validation, norm-method validation
(note the source's accepted set is literally `{'total', 'lf_af'}`, at odds
with its own docstring's `lf_hf`), input standardization, band-arity
validation, windowing, frequency-axis construction, uniform grid, the
(logging-only) Nyquist check, the optional Lomb estimate on the raw series,
the always-run resampling, and the optional truncated Welch estimate.  The
`ar` method passes validation but has no estimator branch. -/
def hrv_freq (ext : Ext) (args : HrvArgs) :
    Except Err (List (String × List ℚ) × List ℚ) :=
  -- Validate methods
  let methods := args.methods.map String.toLower
  if methods.isEmpty || !(methods.all (fun m => supportedMethods.contains m)) then
    .error .configError
  else
    -- Validate norm method (the source's literal set is {'total', 'lf_af'})
    let norm_method := args.norm_method.toLower
    if !(norm_method == "total" || norm_method == "lf_af") then
      .error .configError
    else
      -- (string win_func values are resolved by an external importlib
      -- lookup; args.win_func models the resolved callable)
      match standardize_rri_trr args.rri args.trr with
      | .error e => .error e
      | .ok (rri, trr) =>
        -- Validate bands
        if !(args.vlf_band.length == 2 && args.lf_band.length == 2 &&
            args.hf_band.length == 2) then
          .error .configError
        else
          let f_min := args.vlf_band.headD 0
          let f_max := args.hf_band.getD 1 0
          let tw_nw := hrvWindowing trr args.window_minutes f_min
          let t_win := tw_nw.1
          let _num_windows := tw_nw.2
          match build_uniform_freq_axis t_win f_min f_max
              args.resample_factor args.oversample_factor with
          | .error e => .error e
          | .ok (f_axis, fs_uni) =>
            let trr_uni := arange (trr.headD 0) (trr.getLastD 0) (1 / fs_uni)
            let n_win_uni := (⌊t_win / (1 / fs_uni)⌋).toNat
            let _num_windows_uni := trr_uni.length / n_win_uni
            -- The Nyquist criterion check only emits logger.warning
            let lombRes : Except Err (List (String × List ℚ)) :=
              if methods.contains "lomb" then
                (pxx_lomb ext ⟨[rri.length], rri⟩ f_axis
                  (some ⟨[trr.length], trr⟩) (some t_win)
                  (some args.win_func)).map (fun p => [("lomb", p)])
              else .ok []
            match lombRes with
            | .error e => .error e
            | .ok lombEntries =>
              let _rri_uni := ext.interpFn trr rri trr_uni
              let welchEntries : List (String × List ℚ) :=
                if methods.contains "welch" then
                  [("welch", hrvWelchPsd ext args rri trr)]
                else []
              .ok (lombEntries ++ welchEntries, f_axis)

/-- The frequency-axis step claimed by the specification (section 4.2):
`Δf = 1 / ((n−1) · (1/fs))` divided by the oversample factor, with
`n = floor(t_win' · fs)`, `fs = R · f_max` and `t_win'` the effective
window.  Stated from the spec's words, to be compared with the source's
`buildFres`. -/
def specStepClaimed (t_win f_min f_max resample_factor
    oversample_factor : ℚ) : ℚ :=
  let t_win := max t_win (1 / f_min)
  let fs := resample_factor * f_max
  let n : ℤ := ⌊t_win * fs⌋
  (1 / (((n : ℚ) - 1) * (1 / fs))) / oversample_factor

/-- The frequency-axis step the source actually computes, in closed form:
`Δf_eff = ((n−1) / (n · t_win')) / O` with `n = floor(t_win' · fs)`.
This is the amended formula of claim C3; `buildFres` is proven equal to
it under the natural domain hypotheses. -/
def specStepAmended (t_win f_min f_max resample_factor
    oversample_factor : ℚ) : ℚ :=
  let t_win := max t_win (1 / f_min)
  let fs := resample_factor * f_max
  let n : ℤ := ⌊t_win * fs⌋
  (((n : ℚ) - 1) / ((n : ℚ) * t_win)) / oversample_factor

/-- A trivial instantiation of the external collaborators, used to
evaluate the orchestrator at concrete inputs. -/
def extTriv : Ext :=
  ⟨fun _ _ _ => [], fun _ _ _ _ _ => ([], []), fun _ _ _ => [], 0⟩

/-- An instantiation of the external collaborators whose Lomb-Scargle
routine reports how many value samples it was handed (its result is the
one-element array holding the length of the `values` argument).  Used to
observe which samples `pxx_lomb` actually passes to the periodogram. -/
def extCount : Ext :=
  ⟨fun _ y _ => [(y.length : ℚ)], fun _ _ _ _ _ => ([], []),
   fun _ _ _ => [], 0⟩

/-- A fully valid argument record for `hrv_freq` except for the
normalization method, which is the parameter: two RR intervals of 1 s with
a synthesized time axis, methods `{"ar"}`, bands `[0.1,0.2]`, `[0.2,0.3]`,
`[0.3,1]` Hz, one-minute windows, rectangular window function, oversample
factor 1, resample factor 2, 50 % Welch overlap. -/
def mkNormArgs (nm : String) : HrvArgs :=
  ⟨⟨[2], [1, 1]⟩, none, ["ar"], nm, [1/10, 2/10], [2/10, 3/10], [3/10, 1],
   some 1, boxcar, 1, 2, 50⟩

/-- The same valid argument record with methods `{"welch"}`. -/
def mkWelchArgs : HrvArgs :=
  ⟨⟨[2], [1, 1]⟩, none, ["welch"], "total", [1/10, 2/10], [2/10, 3/10],
   [3/10, 1], some 1, boxcar, 1, 2, 50⟩

/-- External collaborators whose Welch estimator always reports the
frequency bins `[1/2, 2]` with powers `[10, 20]`; with `f_max = 1` the
truncation must keep exactly the power 10. -/
def extWelch : Ext :=
  ⟨fun _ _ _ => [], fun _ _ _ _ _ => ([1/2, 2], [10, 20]),
   fun _ _ _ => [], 0⟩

end Pyhrv

deriving instance DecidableEq for Except

namespace Pyhrv

theorem cumsum_length (xs : List ℚ) : (cumsum xs).length = xs.length := by
  simp [cumsum, List.length_scanl]

theorem arange_length (start stop step : ℚ) (h : 0 < step) :
    (arange start stop step).length = (⌈(stop - start) / step⌉).toNat := by
  simp [arange, if_pos h]

theorem arange_self_eq_progression (stop step : ℚ) :
    arange step stop step = (List.range (arange step stop step).length).map
      (fun (k : Nat) => step * ((k : ℚ) + 1)) := by
  unfold arange
  simp only [List.length_map, List.length_range]
  refine List.map_congr_left (fun i _ => ?_)
  ring

theorem arange_self_pairwise (stop step : ℚ) (h : 0 < step) :
    (arange step stop step).Pairwise (· < ·) := by
  unfold arange
  refine List.Pairwise.map _ (fun a b hab => ?_) (List.pairwise_lt_range _)
  have : (a : ℚ) < (b : ℚ) := by exact_mod_cast hab
  nlinarith

theorem arange_self_lt_stop (stop step : ℚ) (h : 0 < step) :
    ∀ x ∈ arange step stop step, x < stop := by
  unfold arange
  intro x hx
  simp only [if_pos h, List.mem_map, List.mem_range] at hx
  obtain ⟨i, hi, rfl⟩ := hx
  have hic : (i : ℤ) < ⌈(stop - step) / step⌉ := Int.lt_toNat.mp hi
  have hceil : ((⌈(stop - step) / step⌉ : ℤ) : ℚ) < (stop - step) / step + 1 :=
    Int.ceil_lt_add_one _
  have hsucc : ((i : ℤ) : ℚ) + 1 ≤ ((⌈(stop - step) / step⌉ : ℤ) : ℚ) := by
    exact_mod_cast hic
  have hiq : (i : ℚ) < (stop - step) / step := by
    push_cast at hsucc
    linarith
  have := (lt_div_iff₀ h).mp hiq
  linarith

theorem floor_div_one_div (t fs : ℚ) :
    ⌊t / (1 / fs)⌋ = ⌊t * fs⌋ := by
  rw [one_div, div_eq_mul_inv, inv_inv]

theorem build_uniform_freq_axis_ok (t_win f_min f_max R O : ℚ)
    (hR : ¬ R < 2) :
    build_uniform_freq_axis t_win f_min f_max R O =
      .ok (arange (buildFres t_win f_min f_max R O) f_max
        (buildFres t_win f_min f_max R O), R * f_max) := by
  simp [build_uniform_freq_axis, buildFres, hR]

theorem tWinEff_pos (t_win f_min : ℚ) (h : 0 < f_min) :
    0 < max t_win (1 / f_min) :=
  lt_of_lt_of_le (by positivity) (le_max_right _ _)

theorem fs_pos (f_min f_max R : ℚ) (h1 : 0 < f_min) (h2 : f_min ≤ f_max)
    (hR : 2 ≤ R) : 0 < R * f_max := by
  have : 0 < f_max := lt_of_lt_of_le h1 h2
  nlinarith

theorem nWin_ge_two (t_win f_min f_max R : ℚ) (h1 : 0 < f_min)
    (h2 : f_min ≤ f_max) (hR : 2 ≤ R) :
    2 ≤ ⌊max t_win (1 / f_min) * (R * f_max)⌋ := by
  rw [Int.le_floor]
  have hfmax : 0 < f_max := lt_of_lt_of_le h1 h2
  have h1' : 1 / f_min ≤ max t_win (1 / f_min) := le_max_right _ _
  have hkey : (1 / f_min) * (2 * f_max) ≤ max t_win (1 / f_min) * (R * f_max) := by
    have hpos : (0 : ℚ) < 1 / f_min := by positivity
    apply mul_le_mul h1' _ (by positivity) (le_of_lt (lt_of_lt_of_le hpos h1'))
    nlinarith
  have hbase : (2 : ℚ) ≤ (1 / f_min) * (2 * f_max) := by
    rw [div_mul_eq_mul_div, one_mul, le_div_iff₀ h1]
    nlinarith
  push_cast
  linarith

theorem buildFres_eq_amended (t_win f_min f_max R O : ℚ) (h1 : 0 < f_min)
    (h2 : f_min ≤ f_max) (hR : 2 ≤ R) (hO : O ≠ 0) :
    buildFres t_win f_min f_max R O = specStepAmended t_win f_min f_max R O := by
  have hn2 := nWin_ge_two t_win f_min f_max R h1 h2 hR
  have htw := tWinEff_pos t_win f_min h1
  simp only [buildFres, specStepAmended]
  rw [floor_div_one_div]
  have hnq : (2 : ℚ) ≤ ((⌊max t_win (1 / f_min) * (R * f_max)⌋ : ℤ) : ℚ) := by
    exact_mod_cast hn2
  have hn0 : ((⌊max t_win (1 / f_min) * (R * f_max)⌋ : ℤ) : ℚ) ≠ 0 := by linarith
  have hn1 : ((⌊max t_win (1 / f_min) * (R * f_max)⌋ : ℤ) : ℚ) - 1 ≠ 0 := by linarith
  field_simp

theorem specStepAmended_pos (t_win f_min f_max R O : ℚ) (h1 : 0 < f_min)
    (h2 : f_min ≤ f_max) (hR : 2 ≤ R) (hO : 0 < O) :
    0 < specStepAmended t_win f_min f_max R O := by
  have hn2 := nWin_ge_two t_win f_min f_max R h1 h2 hR
  have htw := tWinEff_pos t_win f_min h1
  simp only [specStepAmended]
  have hnq : (2 : ℚ) ≤ ((⌊max t_win (1 / f_min) * (R * f_max)⌋ : ℤ) : ℚ) := by
    exact_mod_cast hn2
  apply div_pos (div_pos (by linarith) (by nlinarith)) hO

/-- C1: claimed — each window's periodogram is computed from exactly the
samples whose timestamps lie in that window, with the window coefficients
applied as an amplitude taper.  The source instead hands the FULL `trr`
and `rri` arrays, untapered, to `scipy.signal.lombscargle` in every
iteration (`src/pyhrv/rri/frequency.py:70-76`), contradicting its own
docstring ("average the periodogram from each window") and making the
masking and tapering statements dead code.  Evaluated here with
`extCount`, whose Lomb-Scargle routine reports the number of value
samples it receives: window 0 of the input holds 3 samples, yet the
periodogram call sees all 6. -/
theorem pxx_lomb_full_series_bug :
    (([((0:ℚ), (1:ℚ)), ((1:ℚ), (1:ℚ)), ((2:ℚ), (1:ℚ)), ((3:ℚ), (1:ℚ)),
       ((4:ℚ), (1:ℚ)), ((5:ℚ), (1:ℚ))].filter
        (fun p => decide ((3 * (0:ℚ)) ≤ p.1) &&
          decide (p.1 < 3 * (0:ℚ) + 3))).map Prod.snd).length = 3 ∧
    pxx_lomb extCount ⟨[6], [1, 1, 1, 1, 1, 1]⟩ [(1:ℚ)/4]
      (some ⟨[6], [0, 1, 2, 3, 4, 5]⟩) (some 3) (some boxcar) = .ok [6] ∧
    ((6:ℚ)) ≠ 3 :=
  ⟨by with_unfolding_all rfl, by with_unfolding_all rfl, by norm_num⟩

/-- C2: claimed — `hrv_freq` accepts exactly the normalization methods
`total` and `lf_hf`.  The source's accepted set is literally
`{'total', 'lf_af'}` (`src/pyhrv/hrv.py:108`), a typo contradicting the
function's own docstring ("either ``total`` or ``lf_hf``"): `lf_hf` is
rejected with the validation error while `lf_af` is accepted. -/
theorem hrv_freq_norm_method_bug :
    hrv_freq extTriv (mkNormArgs "lf_hf") = .error .configError ∧
    (hrv_freq extTriv (mkNormArgs "lf_af")).isOk = true ∧
    (hrv_freq extTriv (mkNormArgs "total")).isOk = true :=
  ⟨by with_unfolding_all rfl, by with_unfolding_all rfl,
   by with_unfolding_all rfl⟩

/-- C3 counterexample: at `t_win = 10`, `f_min = 1/10`, `f_max = 1`,
`R = 2`, `O = 1` the source's frequency-axis step (first bin) is
`19/200` — here `n = 20`, `ts = 10/19` and `f_res = 1/(n·ts) = 19/200` —
whereas the claim's formula `Δf_eff = (1/((n−1)·(1/fs)))/O` evaluates to
`2/19`.  The two differ, so the claimed step formula does not hold of the
code. -/
theorem freq_axis_spec_step_counterexample :
    build_uniform_freq_axis 10 (1/10) 1 2 1 =
      .ok (arange (19/200) 1 (19/200), 2) ∧
    (arange (19/200) 1 (19/200)).head? = some (19/200) ∧
    specStepClaimed 10 (1/10) 1 2 1 = 2/19 ∧
    ((19 : ℚ)/200) ≠ 2/19 :=
  ⟨by with_unfolding_all rfl, by with_unfolding_all rfl,
   by with_unfolding_all rfl, by norm_num⟩

/-- C3 (amended): for `0 < f_min ≤ f_max`, `R ≥ 2` and `O ≥ 1`,
`build_uniform_freq_axis` returns the arithmetic sequence
`Δf_eff, 2·Δf_eff, …` with step
`Δf_eff = ((n−1) / (n · t_win')) / O` (NOT the claimed
`(1/((n−1)·(1/fs)))/O`), where `t_win' = max(t_win, 1/f_min)`,
`fs = R·f_max` and `n = ⌊t_win'·fs⌋`; the axis is strictly increasing and
no element exceeds `f_max`. -/
theorem freq_axis_progression (t_win f_min f_max R O : ℚ) (h1 : 0 < f_min)
    (h2 : f_min ≤ f_max) (hR : 2 ≤ R) (hO : 1 ≤ O) :
    ∃ fa, build_uniform_freq_axis t_win f_min f_max R O = .ok (fa, R * f_max) ∧
      fa = (List.range fa.length).map
        (fun (k : Nat) => specStepAmended t_win f_min f_max R O * ((k : ℚ) + 1)) ∧
      fa.Pairwise (· < ·) ∧ ∀ x ∈ fa, x ≤ f_max := by
  have hR' : ¬ R < 2 := not_lt.mpr hR
  have hO0 : (0 : ℚ) < O := lt_of_lt_of_le one_pos hO
  have hF := buildFres_eq_amended t_win f_min f_max R O h1 h2 hR (ne_of_gt hO0)
  have hpos := specStepAmended_pos t_win f_min f_max R O h1 h2 hR hO0
  refine ⟨_, build_uniform_freq_axis_ok t_win f_min f_max R O hR', ?_, ?_, ?_⟩
  · rw [hF]
    exact arange_self_eq_progression f_max _
  · rw [hF]
    exact arange_self_pairwise f_max _ hpos
  · rw [hF]
    exact fun x hx => le_of_lt (arange_self_lt_stop f_max _ hpos x hx)

/-- C3 witness: the amended axis theorem instantiated at
`t_win = 10, f_min = 1/10, f_max = 1, R = 2, O = 1`. -/
theorem freq_axis_progression_witness :
    (0:ℚ) < 1/10 ∧ (1/10 : ℚ) ≤ 1 ∧ (2:ℚ) ≤ 2 ∧ (1:ℚ) ≤ 1 ∧
    (∃ fa, build_uniform_freq_axis 10 (1/10) 1 2 1 = .ok (fa, 2 * 1) ∧
      fa = (List.range fa.length).map
        (fun (k : Nat) => specStepAmended 10 (1/10) 1 2 1 * ((k : ℚ) + 1)) ∧
      fa.Pairwise (· < ·) ∧ ∀ x ∈ fa, x ≤ 1) :=
  ⟨by norm_num, by norm_num, le_refl _, le_refl _,
   freq_axis_progression 10 (1/10) 1 2 1 (by norm_num) (by norm_num)
     (le_refl _) (le_refl _)⟩

/-- C4: when not even one window of length `t_win` fits (the first
window's end exceeds the last timestamp), `pxx_lomb` completes without
raising any error (in particular no `NoDataError`): the loop counter —
the divisor of the final averaging step — is still 0, and the accumulated
spectrum is divided elementwise by that zero counter. -/
theorem pxx_lomb_zero_windows (ext : Ext) (rriA : NDArray) (f_axis : List ℚ)
    (trrA : Option NDArray) (t_win : ℚ) (wf : Option (Nat → List ℚ))
    (r t : List ℚ)
    (hst : standardize_rri_trr rriA trrA = .ok (r, t))
    (hpos : 0 < t_win) (hlt : t.getLastD 0 < t_win) :
    lombWindowCount t_win (t.getLastD 0) = 0 ∧
    pxx_lomb ext rriA f_axis trrA (some t_win) wf =
      .ok ((f_axis.map (fun _ => (0 : ℚ))).map
        (fun x => x / ((lombWindowCount t_win (t.getLastD 0) : ℕ) : ℚ))) := by
  have hcount : lombWindowCount t_win (t.getLastD 0) = 0 := by
    simp only [lombWindowCount, if_pos hpos]
    have hfl : ⌊t.getLastD 0 / t_win⌋ < 1 := by
      rw [Int.floor_lt]
      push_cast
      rw [div_lt_one hpos]
      exact hlt
    omega
  refine ⟨hcount, ?_⟩
  simp only [pxx_lomb, hst, if_neg (ne_of_gt hpos), hcount, List.range_zero,
    List.map_nil, List.foldl_nil, Nat.cast_zero]

/-- C4 witness: two RR intervals spanning one second, window length two
seconds — zero windows fit, the counter is zero, no error is raised. -/
theorem pxx_lomb_zero_windows_witness :
    standardize_rri_trr ⟨[2], [1, 1]⟩ none = .ok ([1, 1], [0, 1]) ∧
    (0:ℚ) < 2 ∧ ([(0:ℚ), 1].getLastD 0) < 2 ∧
    (lombWindowCount 2 ([(0:ℚ), 1].getLastD 0) = 0 ∧
     pxx_lomb extTriv ⟨[2], [1, 1]⟩ [(1:ℚ)/2] none (some 2) (some boxcar) =
       .ok (([(1:ℚ)/2].map (fun _ => (0 : ℚ))).map
         (fun x => x / ((lombWindowCount 2 ([(0:ℚ), 1].getLastD 0) : ℕ) : ℚ)))) :=
  ⟨by with_unfolding_all rfl, by norm_num, by norm_num,
   pxx_lomb_zero_windows extTriv ⟨[2], [1, 1]⟩ [(1:ℚ)/2] none 2 (some boxcar)
     [1, 1] [0, 1] (by with_unfolding_all rfl) (by norm_num) (by norm_num)⟩

/-- C5 counterexample: with `trr = [100, 150]`, `window_minutes = 2` and
`f_min = 1/10`, the effective window is `t_win = max(120, 10) = 120` and
the recording duration `150 − 100 = 50` cannot fit one window, so the
claim demands the fallback `t_win = ⌊50⌋ = 50`.  The source instead tests
`⌊trr[-1] / t_win⌋ = ⌊150/120⌋ = 1 ≥ 1` (the last timestamp, not the
duration) and keeps `t_win = 120`. -/
theorem hrv_windowing_duration_counterexample :
    (150 : ℚ) - 100 < max (60 * 2) (1 / (1/10 : ℚ)) ∧
    hrvWindowing [(100:ℚ), 150] (some 2) (1/10) = (120, 1) ∧
    ((⌊(150:ℚ) - 100⌋ : ℤ) : ℚ) = 50 ∧
    ((120 : ℚ), (1 : ℤ)) ≠ ((50 : ℚ), (1 : ℤ)) :=
  ⟨by norm_num, by with_unfolding_all rfl, by norm_num,
   by simp [Prod.ext_iff]⟩

/-- C5 (amended): for `window_minutes = w ≥ 1` and `0 < f_min`, the
effective window duration is `t_win = max(60·w, 1/f_min)`, and the
single-window fallback (`num_windows = 1`,
`t_win = ⌊trr[-1] − trr[0]⌋`) triggers exactly when `⌊trr[-1]/t_win⌋ < 1`
— which, PROVIDED `trr[0] = 0` (e.g. a synthesized time axis), coincides
with the claimed condition that the recording duration
`trr[-1] − trr[0]` cannot fit one window. -/
theorem hrv_windowing_fallback (trr : List ℚ) (w f_min : ℚ)
    (h0 : trr.headD 0 = 0) (hw : 1 ≤ w) (hf : 0 < f_min) :
    (trr.getLastD 0 - trr.headD 0 < max (60 * w) (1 / f_min) →
      hrvWindowing trr (some w) f_min =
        (((⌊trr.getLastD 0 - trr.headD 0⌋ : ℤ) : ℚ), 1)) ∧
    (max (60 * w) (1 / f_min) ≤ trr.getLastD 0 - trr.headD 0 →
      hrvWindowing trr (some w) f_min =
        (max (60 * w) (1 / f_min),
         ⌊trr.getLastD 0 / max (60 * w) (1 / f_min)⌋) ∧
      1 ≤ ⌊trr.getLastD 0 / max (60 * w) (1 / f_min)⌋) := by
  have htw : (0 : ℚ) < max (60 * w) (1 / f_min) :=
    lt_of_lt_of_le (by positivity) (le_max_right _ _)
  have hwne : ¬ (w = 0 ∨ w < 1) := by
    push_neg
    exact ⟨by linarith, hw⟩
  constructor
  · intro hcase
    rw [h0, sub_zero] at hcase
    have hfl : ⌊trr.getLastD 0 / max (60 * w) (1 / f_min)⌋ < 1 := by
      rw [Int.floor_lt]
      push_cast
      rw [div_lt_one htw]
      exact hcase
    simp only [hrvWindowing, if_neg hwne, if_pos hfl]
  · intro hcase
    rw [h0, sub_zero] at hcase
    have hfl : 1 ≤ ⌊trr.getLastD 0 / max (60 * w) (1 / f_min)⌋ := by
      rw [Int.le_floor]
      push_cast
      rw [le_div_iff₀ htw]
      linarith
    simp only [hrvWindowing, if_neg hwne, if_neg (not_lt.mpr hfl)]
    exact ⟨trivial, hfl⟩

/-- C5 witness: the amended windowing theorem at `trr = [0, 50]`,
`window_minutes = 2`, `f_min = 1/10`; here the fallback branch fires and
returns `(50, 1)`. -/
theorem hrv_windowing_fallback_witness :
    ([(0:ℚ), 50].headD 0 = 0) ∧ (1:ℚ) ≤ 2 ∧ (0:ℚ) < 1/10 ∧
    (([(0:ℚ), 50].getLastD 0 - [(0:ℚ), 50].headD 0 <
        max (60 * 2) (1 / (1/10 : ℚ)) →
      hrvWindowing [(0:ℚ), 50] (some 2) (1/10) =
        (((⌊[(0:ℚ), 50].getLastD 0 - [(0:ℚ), 50].headD 0⌋ : ℤ) : ℚ), 1)) ∧
     (max (60 * 2) (1 / (1/10 : ℚ)) ≤
        [(0:ℚ), 50].getLastD 0 - [(0:ℚ), 50].headD 0 →
      hrvWindowing [(0:ℚ), 50] (some 2) (1/10) =
        (max (60 * 2) (1 / (1/10 : ℚ)),
         ⌊[(0:ℚ), 50].getLastD 0 / max (60 * 2) (1 / (1/10 : ℚ))⌋) ∧
      1 ≤ ⌊[(0:ℚ), 50].getLastD 0 / max (60 * 2) (1 / (1/10 : ℚ))⌋)) :=
  ⟨by with_unfolding_all rfl, by norm_num, by norm_num,
   hrv_windowing_fallback [(0:ℚ), 50] 2 (1/10) (by with_unfolding_all rfl)
     (by norm_num) (by norm_num)⟩

/-- C6: `build_uniform_freq_axis` fails with the configuration error
exactly for `resample_factor < 2`, and for `resample_factor ≥ 2` it
returns the uniform resample rate `fs = resample_factor · f_max`. -/
theorem build_axis_resample_validation (t_win f_min f_max R O : ℚ) :
    (R < 2 →
      build_uniform_freq_axis t_win f_min f_max R O = .error .configError) ∧
    (2 ≤ R →
      ∃ fa, build_uniform_freq_axis t_win f_min f_max R O =
        .ok (fa, R * f_max)) := by
  constructor
  · intro h
    simp [build_uniform_freq_axis, if_pos h]
  · intro h
    exact ⟨_, build_uniform_freq_axis_ok t_win f_min f_max R O (not_lt.mpr h)⟩

/-- C6 witness: the validation theorem at `R = 3/2` (rejected) and
`R = 2` (accepted, `fs = 2·1`). -/
theorem build_axis_resample_validation_witness :
    ((3/2 : ℚ) < 2 ∧
      build_uniform_freq_axis 10 (1/10) 1 (3/2) 1 = .error .configError) ∧
    ((2:ℚ) ≤ 2 ∧
      ∃ fa, build_uniform_freq_axis 10 (1/10) 1 2 1 = .ok (fa, 2 * 1)) :=
  ⟨⟨by norm_num,
    (build_axis_resample_validation 10 (1/10) 1 (3/2) 1).1 (by norm_num)⟩,
   ⟨le_refl _,
    (build_axis_resample_validation 10 (1/10) 1 2 1).2 (le_refl _)⟩⟩

theorem arange_step_length_eq (f_max F : ℚ) (hF : 0 < F) (hfm : 0 < f_max) :
    ((arange F f_max F).length : ℤ) = ⌈f_max / F⌉ - 1 := by
  rw [arange_length _ _ _ hF]
  have h1 : (f_max - F) / F = f_max / F - 1 := by
    field_simp
  rw [h1, show (1 : ℚ) = ((1 : ℤ) : ℚ) by norm_num, Int.ceil_sub_int]
  have h2 : 1 ≤ ⌈f_max / F⌉ := by
    rw [Int.le_ceil_iff]
    push_cast
    simp only [sub_self]
    positivity
  omega

theorem specStepAmended_div (t_win f_min f_max R O : ℚ) :
    specStepAmended t_win f_min f_max R O =
      specStepAmended t_win f_min f_max R 1 / O := by
  simp only [specStepAmended]
  rw [div_one]

theorem specStepAmended_lt_fmax (t_win f_min f_max R : ℚ) (h1 : 0 < f_min)
    (h2 : f_min ≤ f_max) (hR : 2 ≤ R) :
    specStepAmended t_win f_min f_max R 1 < f_max := by
  have hn2 := nWin_ge_two t_win f_min f_max R h1 h2 hR
  have htw := tWinEff_pos t_win f_min h1
  have hfm : (0 : ℚ) < f_max := lt_of_lt_of_le h1 h2
  have hft : (1 : ℚ) ≤ f_max * max t_win (1 / f_min) := by
    have step1 : f_max * (1 / f_min) ≤ f_max * max t_win (1 / f_min) :=
      mul_le_mul_of_nonneg_left (le_max_right _ _) (le_of_lt hfm)
    have step2 : (1 : ℚ) ≤ f_max * (1 / f_min) := by
      rw [mul_one_div, le_div_iff₀ h1]
      linarith
    linarith
  simp only [specStepAmended, div_one]
  have hnq : (2 : ℚ) ≤ ((⌊max t_win (1 / f_min) * (R * f_max)⌋ : ℤ) : ℚ) := by
    exact_mod_cast hn2
  rw [div_lt_iff₀ (by nlinarith)]
  nlinarith

/-- C7 counterexample: with `t_win = 10`, `f_min = 1/10`, `f_max = 1`,
`R = 2` and the oversample factors `O1 = 1 < O2 = 101/100`, both calls
return the same `fs = 2` and axes of the SAME length 10 — increasing the
oversample factor did not strictly increase the number of bins (the bin
count is `⌈f_max·O/Δf⌉ − 1`, which is unchanged by a small enough
increase of `O`). -/
theorem oversample_bins_counterexample :
    build_uniform_freq_axis 10 (1/10) 1 2 1 =
      .ok (arange (19/200) 1 (19/200), 2) ∧
    build_uniform_freq_axis 10 (1/10) 1 2 (101/100) =
      .ok (arange (19/202) 1 (19/202), 2) ∧
    (1 : ℚ) < 101/100 ∧
    (arange (19/200) 1 (19/200)).length = 10 ∧
    (arange (19/202) 1 (19/202)).length = 10 :=
  ⟨by with_unfolding_all rfl, by with_unfolding_all rfl, by norm_num,
   by with_unfolding_all rfl, by with_unfolding_all rfl⟩

/-- C7 (amended): for `0 < f_min ≤ f_max`, `R ≥ 2`, `O1 ≥ 1` and
`O2 ≥ O1 + 1` (in particular for any two distinct integer oversample
factors), both calls succeed with the same `fs = R·f_max` and the larger
oversample factor yields strictly more frequency bins. -/
theorem oversample_bins_strict (t_win f_min f_max R O1 O2 : ℚ)
    (h1 : 0 < f_min) (h2 : f_min ≤ f_max) (hR : 2 ≤ R)
    (hO1 : 1 ≤ O1) (hO12 : O1 + 1 ≤ O2) :
    ∃ fa1 fa2,
      build_uniform_freq_axis t_win f_min f_max R O1 = .ok (fa1, R * f_max) ∧
      build_uniform_freq_axis t_win f_min f_max R O2 = .ok (fa2, R * f_max) ∧
      fa1.length < fa2.length := by
  have hR' : ¬ R < 2 := not_lt.mpr hR
  have hfm : (0 : ℚ) < f_max := lt_of_lt_of_le h1 h2
  have hO1p : (0 : ℚ) < O1 := lt_of_lt_of_le one_pos hO1
  have hO2p : (0 : ℚ) < O2 := by linarith
  have hB0 : (0 : ℚ) < specStepAmended t_win f_min f_max R 1 :=
    specStepAmended_pos t_win f_min f_max R 1 h1 h2 hR one_pos
  have hBf : specStepAmended t_win f_min f_max R 1 < f_max :=
    specStepAmended_lt_fmax t_win f_min f_max R h1 h2 hR
  have ha : (1 : ℚ) < f_max / specStepAmended t_win f_min f_max R 1 :=
    (one_lt_div hB0).mpr hBf
  have e1 : build_uniform_freq_axis t_win f_min f_max R O1 =
      .ok (arange (specStepAmended t_win f_min f_max R O1) f_max
        (specStepAmended t_win f_min f_max R O1), R * f_max) := by
    rw [build_uniform_freq_axis_ok _ _ _ _ _ hR',
      buildFres_eq_amended _ _ _ _ _ h1 h2 hR (ne_of_gt hO1p)]
  have e2 : build_uniform_freq_axis t_win f_min f_max R O2 =
      .ok (arange (specStepAmended t_win f_min f_max R O2) f_max
        (specStepAmended t_win f_min f_max R O2), R * f_max) := by
    rw [build_uniform_freq_axis_ok _ _ _ _ _ hR',
      buildFres_eq_amended _ _ _ _ _ h1 h2 hR (ne_of_gt hO2p)]
  refine ⟨_, _, e1, e2, ?_⟩
  have hP1 : (0 : ℚ) < specStepAmended t_win f_min f_max R O1 :=
    specStepAmended_pos t_win f_min f_max R O1 h1 h2 hR hO1p
  have hP2 : (0 : ℚ) < specStepAmended t_win f_min f_max R O2 :=
    specStepAmended_pos t_win f_min f_max R O2 h1 h2 hR hO2p
  have l1 := arange_step_length_eq f_max _ hP1 hfm
  have l2 := arange_step_length_eq f_max _ hP2 hfm
  have hstep1 : f_max / specStepAmended t_win f_min f_max R O1 =
      f_max / specStepAmended t_win f_min f_max R 1 * O1 := by
    rw [specStepAmended_div t_win f_min f_max R O1, div_div_eq_mul_div]
    ring
  have hstep2 : f_max / specStepAmended t_win f_min f_max R O2 =
      f_max / specStepAmended t_win f_min f_max R 1 * O2 := by
    rw [specStepAmended_div t_win f_min f_max R O2, div_div_eq_mul_div]
    ring
  rw [hstep1] at l1
  rw [hstep2] at l2
  have hceil_lt : ⌈f_max / specStepAmended t_win f_min f_max R 1 * O1⌉ <
      ⌈f_max / specStepAmended t_win f_min f_max R 1 * O2⌉ := by
    have c1 : ((⌈f_max / specStepAmended t_win f_min f_max R 1 * O1⌉ : ℤ) : ℚ) <
        f_max / specStepAmended t_win f_min f_max R 1 * O1 + 1 :=
      Int.ceil_lt_add_one _
    have c2 : f_max / specStepAmended t_win f_min f_max R 1 * O2 ≤
        ((⌈f_max / specStepAmended t_win f_min f_max R 1 * O2⌉ : ℤ) : ℚ) :=
      Int.le_ceil _
    have hgap : f_max / specStepAmended t_win f_min f_max R 1 * O1 + 1 <
        f_max / specStepAmended t_win f_min f_max R 1 * O2 := by
      nlinarith
    exact_mod_cast lt_of_lt_of_le (lt_trans c1 hgap) c2
  omega

/-- C7 witness: the amended oversampling theorem at
`t_win = 10, f_min = 1/10, f_max = 1, R = 2, O1 = 1, O2 = 4`. -/
theorem oversample_bins_strict_witness :
    (0:ℚ) < 1/10 ∧ (1/10 : ℚ) ≤ 1 ∧ (2:ℚ) ≤ 2 ∧ (1:ℚ) ≤ 1 ∧
    (1:ℚ) + 1 ≤ 4 ∧
    (∃ fa1 fa2,
      build_uniform_freq_axis 10 (1/10) 1 2 1 = .ok (fa1, 2 * 1) ∧
      build_uniform_freq_axis 10 (1/10) 1 2 4 = .ok (fa2, 2 * 1) ∧
      fa1.length < fa2.length) :=
  ⟨by norm_num, by norm_num, le_refl _, le_refl _, by norm_num,
   oversample_bins_strict 10 (1/10) 1 2 1 4 (by norm_num) (by norm_num)
     (le_refl _) (le_refl _) (by norm_num)⟩

theorem np_squeeze_check_error_eq (a : NDArray) (e : Err)
    (h : np_squeeze_check a = .error e) : e = .shapeError := by
  unfold np_squeeze_check at h
  split at h
  · exact absurd h (by simp)
  · simpa using h.symm

theorem np_squeeze_check_of_many_dims (a : NDArray)
    (h : 1 < (a.shape.filter (fun d => d ≠ 1)).length) :
    np_squeeze_check a = .error .shapeError := by
  unfold np_squeeze_check
  rw [if_neg (by omega)]

/-- C8 counterexample: for an empty 1-d `rri` (shape `(0,)`) with `trr`
omitted, the source synthesizes `np.r_[0.0, np.cumsum(rri)[:-1]]`, which
has length 1, so the call succeeds yet returns arrays of UNEQUAL lengths
(0 and 1). -/
theorem standardize_empty_rri_counterexample :
    standardize_rri_trr ⟨[0], []⟩ none = .ok ([], [0]) ∧
    ([] : List ℚ).length ≠ [(0:ℚ)].length :=
  ⟨by with_unfolding_all rfl, by norm_num⟩

/-- C8 (amended): whenever `standardize_rri_trr` succeeds, it returns two
1-d arrays (the model's return type), of equal length PROVIDED the
RR array is nonempty or the time array was supplied (for an empty `rri`
with omitted `trr` the synthesized time axis has length 1); any input
array with more than one non-unit dimension makes the call fail with the
shape error, and when both arrays are supplied with different (squeezed)
lengths it fails with the shape-mismatch error. -/
theorem standardize_shape_contract (rriA : NDArray) (trrA : Option NDArray) :
    (∀ r t, standardize_rri_trr rriA trrA = .ok (r, t) →
      (r ≠ [] ∨ trrA ≠ none) → r.length = t.length) ∧
    (1 < (rriA.shape.filter (fun d => d ≠ 1)).length →
      standardize_rri_trr rriA trrA = .error .shapeError) ∧
    (∀ tA, trrA = some tA →
      1 < (tA.shape.filter (fun d => d ≠ 1)).length →
      standardize_rri_trr rriA trrA = .error .shapeError) ∧
    (∀ tA r t, trrA = some tA → np_squeeze_check rriA = .ok r →
      np_squeeze_check tA = .ok t → r.length ≠ t.length →
      standardize_rri_trr rriA trrA = .error .shapeMismatchError) := by
  refine ⟨?_, ?_, ?_, ?_⟩
  · intro r t hok hne
    cases hsq : np_squeeze_check rriA with
    | error e =>
      simp only [standardize_rri_trr, hsq] at hok
      exact absurd hok (by simp)
    | ok r0 =>
      cases trrA with
      | none =>
        simp only [standardize_rri_trr, hsq, Except.ok.injEq,
          Prod.mk.injEq] at hok
        obtain ⟨hr, ht⟩ := hok
        subst hr
        have hrne : r0 ≠ [] := by
          rcases hne with h | h
          · exact h
          · exact absurd rfl h
        rw [← ht]
        simp only [List.length_cons, List.length_dropLast, cumsum_length]
        have : 0 < r0.length := List.length_pos.mpr hrne
        omega
      | some tA =>
        simp only [standardize_rri_trr, hsq] at hok
        cases hsqt : np_squeeze_check tA with
        | error e =>
          simp only [hsqt] at hok
          exact absurd hok (by simp)
        | ok t0 =>
          simp only [hsqt] at hok
          by_cases hlen : t0.length ≠ r0.length
          · rw [if_pos hlen] at hok
            exact absurd hok (by simp)
          · rw [if_neg hlen] at hok
            simp only [Except.ok.injEq, Prod.mk.injEq] at hok
            obtain ⟨hr, ht⟩ := hok
            subst hr
            subst ht
            push_neg at hlen
            exact hlen.symm
  · intro hgt
    simp only [standardize_rri_trr, np_squeeze_check_of_many_dims rriA hgt]
  · intro tA htrr hgt
    subst htrr
    cases hsq : np_squeeze_check rriA with
    | error e =>
      simp only [standardize_rri_trr, hsq,
        np_squeeze_check_error_eq rriA e hsq]
    | ok r0 =>
      simp only [standardize_rri_trr, hsq,
        np_squeeze_check_of_many_dims tA hgt]
  · intro tA r t htrr h1 h2 hlen
    subst htrr
    simp only [standardize_rri_trr, h1, h2, if_pos (by omega : ¬ t.length = r.length)]

/-- C8 witness: the shape contract applied at concrete inputs — a valid
pair (equal lengths), an RR array of shape `(2, 3)` (shape error), a time
array of shape `(2, 3)` (shape error), and a 2-vs-3 length mismatch
(shape-mismatch error). -/
theorem standardize_shape_contract_witness :
    (([1, 2] : List ℚ).length = ([0, 1] : List ℚ).length) ∧
    (standardize_rri_trr ⟨[2, 3], [1, 1, 1, 1, 1, 1]⟩ none =
      .error .shapeError) ∧
    (standardize_rri_trr ⟨[2], [1, 2]⟩ (some ⟨[2, 3], [1, 1, 1, 1, 1, 1]⟩) =
      .error .shapeError) ∧
    (standardize_rri_trr ⟨[2], [1, 2]⟩ (some ⟨[3], [0, 1, 2]⟩) =
      .error .shapeMismatchError) :=
  ⟨(standardize_shape_contract ⟨[2], [1, 2]⟩ (some ⟨[2], [0, 1]⟩)).1
     [1, 2] [0, 1] (by with_unfolding_all rfl) (Or.inr (by simp)),
   (standardize_shape_contract ⟨[2, 3], [1, 1, 1, 1, 1, 1]⟩ none).2.1
     (by decide),
   (standardize_shape_contract ⟨[2], [1, 2]⟩
       (some ⟨[2, 3], [1, 1, 1, 1, 1, 1]⟩)).2.2.1
     ⟨[2, 3], [1, 1, 1, 1, 1, 1]⟩ rfl (by decide),
   (standardize_shape_contract ⟨[2], [1, 2]⟩ (some ⟨[3], [0, 1, 2]⟩)).2.2.2
     ⟨[3], [0, 1, 2]⟩ [1, 2] [0, 1, 2] rfl (by with_unfolding_all rfl)
     (by with_unfolding_all rfl) (by norm_num)⟩

/-- C10: with methods exactly `{"ar"}` and otherwise valid inputs,
`hrv_freq` passes validation (`ar` is in the supported set), runs no
estimator, raises no error, and returns the empty PSD mapping together
with the frequency axis. -/
theorem hrv_freq_ar_empty (ext : Ext) (args : HrvArgs) (r t : List ℚ)
    (hm : args.methods = ["ar"])
    (hn : args.norm_method = "total")
    (hst : standardize_rri_trr args.rri args.trr = .ok (r, t))
    (hb1 : args.vlf_band.length = 2) (hb2 : args.lf_band.length = 2)
    (hb3 : args.hf_band.length = 2)
    (hR : ¬ args.resample_factor < 2) :
    ∃ fa, hrv_freq ext args = .ok ([], fa) := by
  have hc1 : ((["ar"].map String.toLower).isEmpty ||
      !((["ar"].map String.toLower).all
        (fun m => supportedMethods.contains m))) = false := by
    with_unfolding_all rfl
  have hc2 : (!(String.toLower "total" == "total" ||
      String.toLower "total" == "lf_af")) = false := by
    with_unfolding_all rfl
  have hcl : (["ar"].map String.toLower).contains "lomb" = false := by
    with_unfolding_all rfl
  have hcw : (["ar"].map String.toLower).contains "welch" = false := by
    with_unfolding_all rfl
  simp only [hrv_freq, hm, hn, hc1, hc2, hcl, hcw, hst, hb1, hb2, hb3,
    build_uniform_freq_axis_ok _ _ _ _ _ hR, Bool.false_eq_true, if_false,
    beq_self_eq_true, Bool.and_self, Bool.not_true, List.nil_append]
  exact ⟨_, rfl⟩

/-- C10 witness: methods `{"ar"}` on two one-second intervals with the
standard bands returns the empty mapping and an axis, with no error. -/
theorem hrv_freq_ar_empty_witness :
    ((mkNormArgs "total").methods = ["ar"]) ∧
    ((mkNormArgs "total").norm_method = "total") ∧
    (standardize_rri_trr (mkNormArgs "total").rri (mkNormArgs "total").trr =
      .ok ([1, 1], [0, 1])) ∧
    ((mkNormArgs "total").vlf_band.length = 2) ∧
    ((mkNormArgs "total").lf_band.length = 2) ∧
    ((mkNormArgs "total").hf_band.length = 2) ∧
    (¬ (mkNormArgs "total").resample_factor < 2) ∧
    (∃ fa, hrv_freq extTriv (mkNormArgs "total") = .ok ([], fa)) :=
  ⟨rfl, rfl, by with_unfolding_all rfl, rfl, rfl, rfl,
   by norm_num [mkNormArgs],
   hrv_freq_ar_empty extTriv (mkNormArgs "total") [1, 1] [0, 1] rfl rfl
     (by with_unfolding_all rfl) rfl rfl rfl (by norm_num [mkNormArgs])⟩

/-- C9: for every validated call with `welch` among the requested methods
(and `lomb` not requested, so the Lomb stage cannot fail first), the
returned `welch` PSD entry is exactly the Welch estimator's power values
at frequencies not exceeding `f_max`: every returned value comes from an
estimator pair with frequency `≤ f_max`, and every estimator pair with
frequency `≤ f_max` contributes its value. -/
theorem hrv_freq_welch_truncation (ext : Ext) (args : HrvArgs) (r t : List ℚ)
    (hne : (args.methods.map String.toLower).isEmpty = false)
    (hsup : (args.methods.map String.toLower).all
      (fun m => supportedMethods.contains m) = true)
    (hnm : (!(args.norm_method.toLower == "total" ||
      args.norm_method.toLower == "lf_af")) = false)
    (hst : standardize_rri_trr args.rri args.trr = .ok (r, t))
    (hb1 : args.vlf_band.length = 2) (hb2 : args.lf_band.length = 2)
    (hb3 : args.hf_band.length = 2)
    (hR : ¬ args.resample_factor < 2)
    (hw : (args.methods.map String.toLower).contains "welch" = true)
    (hl : (args.methods.map String.toLower).contains "lomb" = false) :
    (∃ fa, hrv_freq ext args =
      .ok ([("welch", hrvWelchPsd ext args r t)], fa)) ∧
    (∀ y ∈ hrvWelchPsd ext args r t,
      ∃ p, p ∈ (hrvWelchRaw ext args r t).1.zip (hrvWelchRaw ext args r t).2 ∧
        p.1 ≤ args.hf_band.getD 1 0 ∧ p.2 = y) ∧
    (∀ p, p ∈ (hrvWelchRaw ext args r t).1.zip (hrvWelchRaw ext args r t).2 →
      p.1 ≤ args.hf_band.getD 1 0 → p.2 ∈ hrvWelchPsd ext args r t) := by
  refine ⟨?_, ?_, ?_⟩
  · simp only [hrv_freq, hne, hnm, hst, hb1, hb2, hb3, hsup, hw, hl,
      build_uniform_freq_axis_ok _ _ _ _ _ hR, Bool.false_eq_true, if_false,
      Bool.not_true, Bool.or_false, Bool.false_or, beq_self_eq_true,
      Bool.and_self, if_true, List.nil_append]
    exact ⟨_, rfl⟩
  · intro y hy
    simp only [hrvWelchPsd, List.mem_map, List.mem_filter] at hy
    obtain ⟨p, ⟨hmem, hle⟩, rfl⟩ := hy
    exact ⟨p, hmem, by simpa using hle, rfl⟩
  · intro p hmem hle
    simp only [hrvWelchPsd, List.mem_map]
    exact ⟨p, List.mem_filter.mpr ⟨hmem, by simpa using hle⟩, rfl⟩

/-- C9 witness: the truncation theorem at `mkWelchArgs` with the
`extWelch` collaborators (estimator bins `[1/2, 2]`, powers `[10, 20]`,
`f_max = 1`). -/
theorem hrv_freq_welch_truncation_witness :
    ((mkWelchArgs.methods.map String.toLower).isEmpty = false) ∧
    ((mkWelchArgs.methods.map String.toLower).all
      (fun m => supportedMethods.contains m) = true) ∧
    ((!(mkWelchArgs.norm_method.toLower == "total" ||
      mkWelchArgs.norm_method.toLower == "lf_af")) = false) ∧
    (standardize_rri_trr mkWelchArgs.rri mkWelchArgs.trr =
      .ok ([1, 1], [0, 1])) ∧
    (mkWelchArgs.vlf_band.length = 2) ∧ (mkWelchArgs.lf_band.length = 2) ∧
    (mkWelchArgs.hf_band.length = 2) ∧
    (¬ mkWelchArgs.resample_factor < 2) ∧
    ((mkWelchArgs.methods.map String.toLower).contains "welch" = true) ∧
    ((mkWelchArgs.methods.map String.toLower).contains "lomb" = false) ∧
    ((∃ fa, hrv_freq extWelch mkWelchArgs =
      .ok ([("welch", hrvWelchPsd extWelch mkWelchArgs [1, 1] [0, 1])], fa)) ∧
    (∀ y ∈ hrvWelchPsd extWelch mkWelchArgs [1, 1] [0, 1],
      ∃ p, p ∈ (hrvWelchRaw extWelch mkWelchArgs [1, 1] [0, 1]).1.zip
          (hrvWelchRaw extWelch mkWelchArgs [1, 1] [0, 1]).2 ∧
        p.1 ≤ mkWelchArgs.hf_band.getD 1 0 ∧ p.2 = y) ∧
    (∀ p, p ∈ (hrvWelchRaw extWelch mkWelchArgs [1, 1] [0, 1]).1.zip
        (hrvWelchRaw extWelch mkWelchArgs [1, 1] [0, 1]).2 →
      p.1 ≤ mkWelchArgs.hf_band.getD 1 0 →
      p.2 ∈ hrvWelchPsd extWelch mkWelchArgs [1, 1] [0, 1])) :=
  ⟨rfl, by with_unfolding_all rfl, by with_unfolding_all rfl,
   by with_unfolding_all rfl, rfl, rfl, rfl, by norm_num [mkWelchArgs],
   by with_unfolding_all rfl, by with_unfolding_all rfl,
   hrv_freq_welch_truncation extWelch mkWelchArgs [1, 1] [0, 1] rfl
     (by with_unfolding_all rfl) (by with_unfolding_all rfl)
     (by with_unfolding_all rfl) rfl rfl rfl (by norm_num [mkWelchArgs])
     (by with_unfolding_all rfl) (by with_unfolding_all rfl)⟩

end Pyhrv
